import Mathlib

set_option maxRecDepth 8000

/-! Verification development for the heading-inference engine of
`Challenge_1b/process_pdfs.py`: a shallow embedding of its text
normalisation, noise filter, font-threshold calibration, heading
classification, outline assembly and aggregate output, together with
theorems about the behavioural properties its design documentation
states. Text is modelled as `List Char`; font sizes as rationals. -/

/-- Python whitespace class, as used by `str.strip()` and the regex class. -/
def isSpace (c : Char) : Bool :=
  c = ' ' || c = '\t' || c = '\n' || c = '\r' || c = Char.ofNat 11 || c = Char.ofNat 12

/-- Python `str.strip()`: drop whitespace at both ends. -/
def strip (cs : List Char) : List Char :=
  ((cs.dropWhile isSpace).reverse.dropWhile isSpace).reverse

/-- Character class of the leader-line pattern in `is_noise`
(dot, dash, and the bullet variants). -/
def isLeaderChar (c : Char) : Bool :=
  c = '.' || c = '-' || c = '•' || c = '▪' || c = '▫' || c = '‣' || c = '⁃'

/-- Matcher for the anchored leader-line pattern of `is_noise`: five or
more characters of the leader class, consuming the entire string. -/
def matchLeader (cs : List Char) : Bool :=
  decide (5 ≤ (cs.takeWhile isLeaderChar).length) && (cs.dropWhile isLeaderChar).isEmpty

/-- Matcher for the bare page-number pattern of `is_noise`: one or two
digits, an optional trailing period, end of string. -/
def matchPageNum : List Char → Bool
  | [d] => d.isDigit
  | [d, e] => d.isDigit && (e.isDigit || e = '.')
  | [d, e, f] => d.isDigit && e.isDigit && f = '.'
  | _ => false

/-- Python `str.isalpha()`: nonempty and every character alphabetic. -/
def isAlphaText (cs : List Char) : Bool :=
  !cs.isEmpty && cs.all Char.isAlpha

/-- Model of `EnhancedPDFOutlineExtractor.is_noise`: strip, then test the
leader-line pattern, the bare page-number pattern, and the
short-non-alphabetic test, in that order. -/
def is_noise (cs : List Char) : Bool :=
  let t := strip cs
  matchLeader t || matchPageNum t || (decide (t.length ≤ 3) && !isAlphaText t)

/-- Declarative reading of clause (a) of the noise rule: five or more
characters, all drawn from the leader/bullet set. -/
def leaderSpec (t : List Char) : Prop :=
  5 ≤ t.length ∧ ∀ c ∈ t, isLeaderChar c = true

/-- Declarative reading of clause (b): a bare 1-2 digit number,
optionally followed by a period. -/
def pageNumSpec (t : List Char) : Prop :=
  ∃ ds tl, t = ds ++ tl ∧ (∀ c ∈ ds, c.isDigit = true) ∧
    1 ≤ ds.length ∧ ds.length ≤ 2 ∧ (tl = [] ∨ tl = ['.'])

/-- Declarative reading of clause (c): at most 3 characters and not
alphabetic (in Python's sense: nonempty with all characters alphabetic). -/
def shortSymbolSpec (t : List Char) : Prop :=
  t.length ≤ 3 ∧ ¬(t ≠ [] ∧ ∀ c ∈ t, c.isAlpha = true)

/-- Declarative reading of the full noise rule, on the stripped text. -/
def noiseSpec (cs : List Char) : Prop :=
  leaderSpec (strip cs) ∨ pageNumSpec (strip cs) ∨ shortSymbolSpec (strip cs)

theorem matchLeader_iff (cs : List Char) : matchLeader cs = true ↔ leaderSpec cs := by
  unfold matchLeader leaderSpec
  constructor
  · intro h
    rw [Bool.and_eq_true, decide_eq_true_iff, List.isEmpty_iff] at h
    obtain ⟨hlen, hnil⟩ := h
    have hall : ∀ c ∈ cs, isLeaderChar c = true := List.dropWhile_eq_nil_iff.mp hnil
    have hself : cs.takeWhile isLeaderChar = cs := List.takeWhile_eq_self_iff.mpr hall
    rw [hself] at hlen
    exact ⟨hlen, hall⟩
  · intro ⟨hlen, hall⟩
    rw [Bool.and_eq_true, decide_eq_true_iff, List.isEmpty_iff]
    refine ⟨?_, List.dropWhile_eq_nil_iff.mpr hall⟩
    rw [List.takeWhile_eq_self_iff.mpr hall]
    exact hlen

theorem matchPageNum_iff (cs : List Char) : matchPageNum cs = true ↔ pageNumSpec cs := by
  constructor
  · intro h
    rcases cs with _ | ⟨a, _ | ⟨b, _ | ⟨c, _ | ⟨d, tl⟩⟩⟩⟩
    · exact absurd h (by simp [matchPageNum])
    · have ha : a.isDigit = true := by simpa [matchPageNum] using h
      refine ⟨[a], [], by simp, ?_, by simp, by simp, Or.inl rfl⟩
      intro x hx
      rw [List.mem_singleton] at hx
      subst hx; exact ha
    · have hab : a.isDigit = true ∧ (b.isDigit = true ∨ b = '.') := by
        simpa [matchPageNum, Bool.and_eq_true, Bool.or_eq_true] using h
      obtain ⟨ha, hb | hb⟩ := hab
      · refine ⟨[a, b], [], by simp, ?_, by simp, by simp, Or.inl rfl⟩
        intro x hx
        rcases List.mem_pair.mp hx with rfl | rfl
        · exact ha
        · exact hb
      · subst hb
        refine ⟨[a], ['.'], by simp, ?_, by simp, by simp, Or.inr rfl⟩
        intro x hx
        rw [List.mem_singleton] at hx
        subst hx; exact ha
    · have habc : (a.isDigit = true ∧ b.isDigit = true) ∧ c = '.' := by
        simpa [matchPageNum, Bool.and_eq_true] using h
      obtain ⟨h2, hc⟩ := habc
      have habc : a.isDigit = true ∧ b.isDigit = true ∧ c = '.' := ⟨h2.1, h2.2, hc⟩
      obtain ⟨ha, hb, hc⟩ := habc
      subst hc
      refine ⟨[a, b], ['.'], by simp, ?_, by simp, by simp, Or.inr rfl⟩
      intro x hx
      rcases List.mem_pair.mp hx with rfl | rfl
      · exact ha
      · exact hb
    · exact absurd h (by simp [matchPageNum])
  · rintro ⟨ds, t, rfl, hdig, h1, h2, rfl | rfl⟩
    · rcases ds with _ | ⟨a, _ | ⟨b, _ | ⟨c, rest⟩⟩⟩
      · simp at h1
      · have ha := hdig a (by simp)
        simp [matchPageNum, ha]
      · have ha := hdig a (by simp)
        have hb := hdig b (by simp)
        simp [matchPageNum, ha, hb]
      · simp only [List.length_cons] at h2
        omega
    · rcases ds with _ | ⟨a, _ | ⟨b, _ | ⟨c, rest⟩⟩⟩
      · simp at h1
      · have ha := hdig a (by simp)
        simp [matchPageNum, ha]
      · have ha := hdig a (by simp)
        have hb := hdig b (by simp)
        simp [matchPageNum, ha, hb]
      · simp only [List.length_cons] at h2
        omega

theorem shortSymbol_iff (cs : List Char) :
    (decide ((strip cs).length ≤ 3) && !isAlphaText (strip cs)) = true
      ↔ shortSymbolSpec (strip cs) := by
  rw [Bool.and_eq_true, decide_eq_true_iff]
  unfold shortSymbolSpec
  constructor
  · rintro ⟨hlen, hna⟩
    refine ⟨hlen, ?_⟩
    rintro ⟨hne, hall⟩
    have h1 : (strip cs).isEmpty = false := by
      rw [Bool.eq_false_iff]
      intro hemp
      exact hne (List.isEmpty_iff.mp hemp)
    have h2 : (strip cs).all Char.isAlpha = true := List.all_eq_true.mpr hall
    have h3 : isAlphaText (strip cs) = true := by
      unfold isAlphaText
      rw [h1, h2]
      rfl
    rw [h3] at hna
    simp at hna
  · rintro ⟨hlen, hns⟩
    refine ⟨hlen, ?_⟩
    rw [Bool.not_eq_true']
    unfold isAlphaText
    by_cases hne : strip cs = []
    · rw [hne]
      rfl
    · rw [Bool.and_eq_false_iff]
      refine Or.inr ?_
      rw [Bool.eq_false_iff]
      intro hall
      exact hns ⟨hne, List.all_eq_true.mp hall⟩

theorem is_noise_iff (cs : List Char) : is_noise cs = true ↔ noiseSpec cs := by
  show (matchLeader (strip cs) || matchPageNum (strip cs) ||
      (decide ((strip cs).length ≤ 3) && !isAlphaText (strip cs))) = true ↔ noiseSpec cs
  rw [Bool.or_eq_true, Bool.or_eq_true, matchLeader_iff, matchPageNum_iff, shortSymbol_iff]
  unfold noiseSpec
  rw [or_assoc]

/-- C7: `is_noise` returns true exactly when the stripped text is a
5-plus-character leader line, a bare 1-2 digit page number with optional
period, or a short (length at most 3) non-alphabetic fragment; in
particular it accepts "......" and "12" and rejects "Introduction". -/
theorem is_noise_characterisation :
    (∀ cs : List Char, is_noise cs = true ↔ noiseSpec cs) ∧
    is_noise (String.toList "......") = true ∧
    is_noise (String.toList "12") = true ∧
    is_noise (String.toList "Introduction") = false :=
  ⟨is_noise_iff, by decide, by decide, by decide⟩

/-- Stable insertion sort: models Python's stable `list.sort`/`sorted`
(two stable sorts of the same total preorder agree extensionally). -/
def insertB {α : Type} (r : α → α → Bool) (x : α) : List α → List α
  | [] => [x]
  | y :: ys => if r x y then x :: y :: ys else y :: insertB r x ys

/-- Stable sort of a whole list by the boolean preorder `r`. -/
def sortB {α : Type} (r : α → α → Bool) : List α → List α
  | [] => []
  | x :: xs => insertB r x (sortB r xs)

theorem perm_insertB {α : Type} (r : α → α → Bool) (x : α) :
    ∀ l : List α, (insertB r x l).Perm (x :: l)
  | [] => List.Perm.refl _
  | y :: ys => by
    unfold insertB
    by_cases h : r x y = true
    · rw [if_pos h]
    · rw [if_neg h]
      exact ((perm_insertB r x ys).cons y).trans (List.Perm.swap x y ys)

theorem perm_sortB {α : Type} (r : α → α → Bool) :
    ∀ l : List α, (sortB r l).Perm l
  | [] => List.Perm.refl _
  | x :: xs => (perm_insertB r x (sortB r xs)).trans ((perm_sortB r xs).cons x)

theorem pairwise_insertB {α : Type} (r : α → α → Bool)
    (htot : ∀ a b, r a b = true ∨ r b a = true)
    (htrans : ∀ a b c, r a b = true → r b c = true → r a c = true)
    (x : α) : ∀ l : List α, l.Pairwise (fun a b => r a b = true) →
      (insertB r x l).Pairwise (fun a b => r a b = true)
  | [], _ => by simp [insertB]
  | y :: ys, hp => by
    rw [List.pairwise_cons] at hp
    obtain ⟨hy, hys⟩ := hp
    unfold insertB
    by_cases h : r x y = true
    · rw [if_pos h, List.pairwise_cons]
      refine ⟨?_, List.pairwise_cons.mpr ⟨hy, hys⟩⟩
      intro z hz
      rcases List.mem_cons.mp hz with rfl | hz
      · exact h
      · exact htrans x y z h (hy z hz)
    · rw [if_neg h, List.pairwise_cons]
      constructor
      · intro z hz
        rcases List.mem_cons.mp ((perm_insertB r x ys).mem_iff.mp hz) with heq | hz
        · rw [heq]
          rcases htot x y with hxy | hyx
          · exact absurd hxy h
          · exact hyx
        · exact hy z hz
      · exact pairwise_insertB r htot htrans x ys hys

theorem pairwise_sortB {α : Type} (r : α → α → Bool)
    (htot : ∀ a b, r a b = true ∨ r b a = true)
    (htrans : ∀ a b c, r a b = true → r b c = true → r a c = true) :
    ∀ l : List α, (sortB r l).Pairwise (fun a b => r a b = true)
  | [] => by simp [sortB]
  | x :: xs => pairwise_insertB r htot htrans x _ (pairwise_sortB r htot htrans xs)

theorem sortB_eq_of_pairwise {α : Type} (r : α → α → Bool) :
    ∀ l : List α, l.Pairwise (fun a b => r a b = true) → sortB r l = l
  | [], _ => rfl
  | x :: xs, hp => by
    rw [List.pairwise_cons] at hp
    obtain ⟨hx, hxs⟩ := hp
    unfold sortB
    rw [sortB_eq_of_pairwise r xs hxs]
    cases xs with
    | nil => rfl
    | cons y ys =>
      unfold insertB
      rw [if_pos (hx y (by simp))]

/-- Model of `HeadingInfo` dataclass from the source. -/
structure HeadingInfo where
  level : String
  text : List Char
  page : Nat
  font_size : ℚ
  font_name : List Char
  is_bold : Bool
  deriving DecidableEq, Repr

/-- Sort key order of both assemblers: page ascending, then font size
descending (Python key `(page, -font_size)`). -/
def ppLE (a b : HeadingInfo) : Bool :=
  decide (a.page < b.page) || (decide (a.page = b.page) && decide (b.font_size ≤ a.font_size))

theorem ppLE_total (a b : HeadingInfo) : ppLE a b = true ∨ ppLE b a = true := by
  unfold ppLE
  rcases Nat.lt_trichotomy a.page b.page with h | h | h
  · left; simp [h]
  · rcases le_total b.font_size a.font_size with hf | hf
    · left; simp [h, hf]
    · right; simp [h.symm, hf]
  · right; simp [h]

theorem ppLE_trans (a b c : HeadingInfo) :
    ppLE a b = true → ppLE b c = true → ppLE a c = true := by
  unfold ppLE
  simp only [Bool.or_eq_true, Bool.and_eq_true, decide_eq_true_iff]
  rintro (h1 | ⟨h1e, h1f⟩) (h2 | ⟨h2e, h2f⟩)
  · exact Or.inl (h1.trans h2)
  · left; rw [← h2e]; exact h1
  · left; rw [h1e]; exact h2
  · exact Or.inr ⟨h1e.trans h2e, h2f.trans h1f⟩

/-- Deduplication key of `PDFOutlineExtractor.post_process_headings`:
the exact `(text, page)` pair. -/
def headingKey (h : HeadingInfo) : List Char × Nat := (h.text, h.page)

/-- First-occurrence deduplication with a `seen` set, as in the source loop. -/
def dedupFirst (seen : List (List Char × Nat)) : List HeadingInfo → List HeadingInfo
  | [] => []
  | h :: rest =>
    if headingKey h ∈ seen then dedupFirst seen rest
    else h :: dedupFirst (headingKey h :: seen) rest

/-- Model of `PDFOutlineExtractor.post_process_headings`: early return on the
empty list, first-occurrence dedup by `(text, page)`, stable sort by
`(page, -font_size)`. No noise filtering happens here. -/
def post_process_headings (headings : List HeadingInfo) : List HeadingInfo :=
  match headings with
  | [] => []
  | h :: rest => sortB ppLE (dedupFirst [] (h :: rest))

theorem post_process_headings_eq (l : List HeadingInfo) :
    post_process_headings l = sortB ppLE (dedupFirst [] l) := by
  cases l <;> rfl

theorem dedupFirst_spec :
    ∀ (l : List HeadingInfo) (seen : List (List Char × Nat)),
      ((dedupFirst seen l).map headingKey).Nodup ∧
      ∀ h ∈ dedupFirst seen l, headingKey h ∉ seen := by
  intro l
  induction l with
  | nil => intro seen; simp [dedupFirst]
  | cons h rest ih =>
    intro seen
    unfold dedupFirst
    by_cases hm : headingKey h ∈ seen
    · rw [if_pos hm]; exact ih seen
    · rw [if_neg hm]
      obtain ⟨hnodup, hnot⟩ := ih (headingKey h :: seen)
      constructor
      · rw [List.map_cons, List.nodup_cons]
        refine ⟨?_, hnodup⟩
        intro hmem
        rcases List.mem_map.mp hmem with ⟨g, hg, hkey⟩
        exact hnot g hg (by rw [hkey]; exact List.mem_cons_self _ _)
      · intro g hg
        rcases List.mem_cons.mp hg with rfl | hg
        · exact hm
        · intro hgseen
          exact hnot g hg (List.mem_cons_of_mem _ hgseen)

theorem dedupFirst_eq_self :
    ∀ (l : List HeadingInfo) (seen : List (List Char × Nat)),
      (l.map headingKey).Nodup → (∀ h ∈ l, headingKey h ∉ seen) →
      dedupFirst seen l = l := by
  intro l
  induction l with
  | nil => intro seen _ _; rfl
  | cons h rest ih =>
    intro seen hnodup hdisj
    rw [List.map_cons, List.nodup_cons] at hnodup
    have hnodup' := hnodup
    unfold dedupFirst
    rw [if_neg (hdisj h (List.mem_cons_self _ _))]
    congr 1
    apply ih
    · exact hnodup'.2
    · intro g hg
      intro hin
      rcases List.mem_cons.mp hin with heq | hin2
      · exact hnodup'.1 (by rw [← heq]; exact List.mem_map_of_mem headingKey hg)
      · exact hdisj g (List.mem_cons_of_mem _ hg) hin2

/-- C8: the outline assembler invoked by `extract_headings_from_pdf` is
idempotent: deduplication by exact `(text, page)` keeping the first
occurrence followed by the stable sort on `(page asc, font_size desc)`
changes nothing when applied a second time. -/
theorem post_process_idempotent (l : List HeadingInfo) :
    post_process_headings (post_process_headings l) = post_process_headings l := by
  rw [post_process_headings_eq l, post_process_headings_eq]
  have hkeys : ((dedupFirst [] l).map headingKey).Nodup := (dedupFirst_spec l []).1
  have hperm : (sortB ppLE (dedupFirst [] l)).Perm (dedupFirst [] l) := perm_sortB ppLE _
  have hkeys2 : ((sortB ppLE (dedupFirst [] l)).map headingKey).Nodup :=
    ((hperm.map headingKey).nodup_iff).mpr hkeys
  rw [dedupFirst_eq_self _ [] hkeys2 (by intro g _ hin; simp at hin)]
  exact sortB_eq_of_pairwise ppLE _ (pairwise_sortB ppLE ppLE_total ppLE_trans _)

/-- Dedup stage of `EnhancedPDFOutlineExtractor.post_process_headings`:
drops noise candidates and dedups by `(text.strip(), page)`. -/
def enhDedup (seen : List (List Char × Nat)) : List HeadingInfo → List HeadingInfo
  | [] => []
  | h :: rest =>
    if is_noise h.text then enhDedup seen rest
    else if (strip h.text, h.page) ∈ seen then enhDedup seen rest
    else h :: enhDedup ((strip h.text, h.page) :: seen) rest

/-- Model of `EnhancedPDFOutlineExtractor.post_process_headings`: noise filter,
dedup, stable sort by `(page, -font_size)`. -/
def enhanced_post_process_headings (headings : List HeadingInfo) : List HeadingInfo :=
  sortB ppLE (enhDedup [] headings)

theorem enhDedup_no_noise :
    ∀ (l : List HeadingInfo) (seen : List (List Char × Nat)) (h : HeadingInfo),
      h ∈ enhDedup seen l → is_noise h.text = false := by
  intro l
  induction l with
  | nil => intro seen h hh; simp [enhDedup] at hh
  | cons g rest ih =>
    intro seen h hh
    unfold enhDedup at hh
    by_cases hn : is_noise g.text = true
    · rw [if_pos hn] at hh; exact ih seen h hh
    · rw [if_neg hn] at hh
      by_cases hs : (strip g.text, g.page) ∈ seen
      · rw [if_pos hs] at hh; exact ih seen h hh
      · rw [if_neg hs] at hh
        rcases List.mem_cons.mp hh with rfl | hh
        · exact Bool.eq_false_iff.mpr hn
        · exact ih _ h hh

/-- C1 (amended): the noise filter lives only in
`EnhancedPDFOutlineExtractor.post_process_headings`; that assembler
never lets an `is_noise` candidate into its output. (The assembler the
extraction pipeline actually invokes performs no noise filtering; see
the counterexample.) -/
theorem enhanced_post_process_drops_noise (l : List HeadingInfo) (h : HeadingInfo)
    (hmem : h ∈ enhanced_post_process_headings l) : is_noise h.text = false :=
  enhDedup_no_noise l [] h ((perm_sortB ppLE _).mem_iff.mp hmem)

/-- Witness for the amended C1 theorem at a concrete candidate list. -/
theorem enhanced_post_process_drops_noise_witness :
    (⟨"H1", String.toList "Introduction", 1, 12, String.toList "F", false⟩ : HeadingInfo) ∈
      enhanced_post_process_headings
        [⟨"H1", String.toList "Introduction", 1, 12, String.toList "F", false⟩] ∧
    is_noise (String.toList "Introduction") = false :=
  ⟨by decide, enhanced_post_process_drops_noise
    [⟨"H1", String.toList "Introduction", 1, 12, String.toList "F", false⟩]
    ⟨"H1", String.toList "Introduction", 1, 12, String.toList "F", false⟩ (by decide)⟩

/-- The extractor's `font_size_threshold` dictionary. -/
structure FontThresholds where
  title : ℚ
  h1 : ℚ
  h2 : ℚ
  h3 : ℚ
  deriving DecidableEq, Repr

/-- The fixed defaults seeded in `PDFOutlineExtractor.__init__`. -/
def defaultThresholds : FontThresholds := ⟨16, 14, 12, 10⟩

/-- Boolean descending order on rationals, for `sorted(..., reverse=True)`. -/
def geQ (a b : ℚ) : Bool := decide (b ≤ a)

theorem geQ_total (a b : ℚ) : geQ a b = true ∨ geQ b a = true := by
  unfold geQ
  rcases le_total a b with h | h
  · right; simpa using h
  · left; simpa using h

theorem geQ_trans (a b c : ℚ) : geQ a b = true → geQ b c = true → geQ a c = true := by
  unfold geQ
  simp only [decide_eq_true_iff]
  exact fun h1 h2 => h2.trans h1

/-- Model of `sorted(set(all_font_sizes), reverse=True)`: the distinct sizes in
descending order. -/
def sortedDistinctDesc (sizes : List ℚ) : List ℚ := sortB geQ sizes.dedup

theorem sortedDistinctDesc_perm (sizes : List ℚ) :
    (sortedDistinctDesc sizes).Perm sizes.dedup := perm_sortB geQ _

theorem sortedDistinctDesc_strict (sizes : List ℚ) :
    (sortedDistinctDesc sizes).Pairwise (· > ·) := by
  have hpw : (sortedDistinctDesc sizes).Pairwise (fun a b => geQ a b = true) :=
    pairwise_sortB geQ geQ_total geQ_trans _
  have hnd : (sortedDistinctDesc sizes).Nodup :=
    (sortedDistinctDesc_perm sizes).nodup_iff.mpr (List.nodup_dedup _)
  have hpw' : (sortedDistinctDesc sizes).Pairwise (fun a b => b ≤ a) :=
    hpw.imp (fun h => by exact decide_eq_true_iff.mp h)
  exact (hpw'.and hnd).imp (fun h => lt_of_le_of_ne h.1 (fun e => h.2 e.symm))

theorem sortedDistinctDesc_mem (sizes : List ℚ) (a : ℚ)
    (h : a ∈ sortedDistinctDesc sizes) : a ∈ sizes :=
  List.mem_dedup.mp ((sortedDistinctDesc_perm sizes).mem_iff.mp h)

theorem mem_sortedDistinctDesc (sizes : List ℚ) (a : ℚ)
    (h : a ∈ sizes) : a ∈ sortedDistinctDesc sizes :=
  (sortedDistinctDesc_perm sizes).mem_iff.mpr (List.mem_dedup.mpr h)

/-- The threshold-update block of `extract_headings_from_pdf`: if the
document has nonempty text at all and at least 4 distinct font sizes,
overwrite h1/h2/h3 with the second/third/fourth largest distinct size;
otherwise leave the incoming thresholds untouched. -/
def updateThresholds (θ : FontThresholds) (sizes : List ℚ) : FontThresholds :=
  match sizes with
  | [] => θ
  | _ :: _ =>
    if h : 4 ≤ (sortedDistinctDesc sizes).length then
      { θ with
        h1 := (sortedDistinctDesc sizes).get ⟨1, by omega⟩
        h2 := (sortedDistinctDesc sizes).get ⟨2, by omega⟩
        h3 := (sortedDistinctDesc sizes).get ⟨3, by omega⟩ }
    else θ

theorem updateThresholds_of_few (θ : FontThresholds) (sizes : List ℚ)
    (h : (sortedDistinctDesc sizes).length < 4) : updateThresholds θ sizes = θ := by
  cases sizes with
  | nil => rfl
  | cons a rest =>
    unfold updateThresholds
    rw [dif_neg (by omega)]

theorem updateThresholds_calibrated (θ : FontThresholds) (sizes : List ℚ)
    (h4 : 4 ≤ (sortedDistinctDesc sizes).length) :
    (updateThresholds θ sizes).h3 ≤ (updateThresholds θ sizes).h2 ∧
    (updateThresholds θ sizes).h2 ≤ (updateThresholds θ sizes).h1 ∧
    (updateThresholds θ sizes).h1 ∈ sizes ∧
    (updateThresholds θ sizes).h2 ∈ sizes ∧
    (updateThresholds θ sizes).h3 ∈ sizes ∧
    ∃ m ∈ sizes, (∀ s ∈ sizes, s ≤ m) ∧ (updateThresholds θ sizes).h1 < m := by
  have hstrict := sortedDistinctDesc_strict sizes
  have hget := List.pairwise_iff_get.mp hstrict
  cases sizes with
  | nil => simp [sortedDistinctDesc, sortB] at h4
  | cons a rest =>
    unfold updateThresholds
    rw [dif_pos h4]
    set ss := sortedDistinctDesc (a :: rest) with hss
    have h01 : ss.get ⟨0, by omega⟩ > ss.get ⟨1, by omega⟩ :=
      hget ⟨0, by omega⟩ ⟨1, by omega⟩ (by exact Nat.zero_lt_one)
    have h12 : ss.get ⟨1, by omega⟩ > ss.get ⟨2, by omega⟩ :=
      hget ⟨1, by omega⟩ ⟨2, by omega⟩ (by exact Nat.lt_succ_self 1)
    have h23 : ss.get ⟨2, by omega⟩ > ss.get ⟨3, by omega⟩ :=
      hget ⟨2, by omega⟩ ⟨3, by omega⟩ (by exact Nat.lt_succ_self 2)
    refine ⟨le_of_lt h23, le_of_lt h12, ?_, ?_, ?_, ?_⟩
    · exact sortedDistinctDesc_mem _ _ (List.get_mem ss 1 (by omega))
    · exact sortedDistinctDesc_mem _ _ (List.get_mem ss 2 (by omega))
    · exact sortedDistinctDesc_mem _ _ (List.get_mem ss 3 (by omega))
    · refine ⟨ss.get ⟨0, by omega⟩,
        sortedDistinctDesc_mem _ _ (List.get_mem ss 0 (by omega)), ?_, h01⟩
      intro s hs
      obtain ⟨i, hi⟩ := List.mem_iff_get.mp (mem_sortedDistinctDesc _ _ hs)
      rcases Nat.eq_zero_or_pos i.val with h0 | hpos
      · rw [← hi]
        apply le_of_eq
        congr 1
        exact Fin.ext (by simp [h0])
      · rw [← hi]
        exact le_of_lt (hget ⟨0, by omega⟩ i hpos)

/-- Consume one or more digits (regex `\d+` followed by a non-digit),
returning the remainder; `none` if no leading digit. -/
def digits1 : List Char → Option (List Char)
  | c :: cs => if c.isDigit then some (cs.dropWhile Char.isDigit) else none
  | [] => none

/-- Tail `\s+\d+` of the chapter pattern: one or more whitespace
characters, then a digit (the rest of the line is unconstrained). -/
def spacesThenDigit : List Char → Bool
  | c :: cs =>
    if isSpace c then
      match cs.dropWhile isSpace with
      | d :: _ => d.isDigit
      | [] => false
    else false
  | [] => false

/-- Case-insensitive literal match at the front, returning the remainder. -/
def dropLitCI : List Char → List Char → Option (List Char)
  | [], cs => some cs
  | _ :: _, [] => none
  | p :: ps, c :: cs => if c.toLower = p.toLower then dropLitCI ps cs else none

/-- Regex `^chapter\s+\d+` with IGNORECASE. -/
def matchChapter (cs : List Char) : Bool :=
  match dropLitCI (String.toList "chapter") cs with
  | some rest => spacesThenDigit rest
  | none => false

/-- Regex `^\d+\.\s` (single-level numbering). -/
def matchNum1 (cs : List Char) : Bool :=
  match digits1 cs with
  | some ('.' :: c :: _) => isSpace c
  | _ => false

/-- Regex `^\d+\.\d+\s` (two-level numbering). -/
def matchNum2 (cs : List Char) : Bool :=
  match digits1 cs with
  | some ('.' :: rest) =>
    match digits1 rest with
    | some (c :: _) => isSpace c
    | _ => false
  | _ => false

/-- Regex `^\d+\.\d+\.\d+\s` (three-level numbering). -/
def matchNum3 (cs : List Char) : Bool :=
  match digits1 cs with
  | some ('.' :: rest) =>
    match digits1 rest with
    | some ('.' :: rest2) =>
      match digits1 rest2 with
      | some (c :: _) => isSpace c
      | _ => false
    | _ => false
  | _ => false

/-- Regex `^[A-Z][A-Z\s]{2,}$`: under IGNORECASE this is one letter
followed by at least two letters/whitespace covering the whole string. -/
def matchAllCaps (cs : List Char) : Bool :=
  match cs with
  | c :: rest =>
    c.isAlpha && decide (2 ≤ rest.length) && rest.all (fun x => x.isAlpha || isSpace x)
  | [] => false

/-- Consume one or more letters, returning the remainder. -/
def letters1 : List Char → Option (List Char)
  | c :: cs => if c.isAlpha then some (cs.dropWhile Char.isAlpha) else none
  | [] => none

/-- Regex `^[A-Z][a-z]+\s[A-Z][a-z]+`: under IGNORECASE, a letter, one
or more letters, a whitespace, a letter, one or more letters. -/
def matchTitleCase (cs : List Char) : Bool :=
  match cs with
  | c :: rest =>
    c.isAlpha &&
      (match letters1 rest with
       | some (s :: after) =>
         isSpace s &&
           (match after with
            | d :: rest2 => d.isAlpha && (letters1 rest2).isSome
            | [] => false)
       | _ => false)
  | [] => false

/-- Model of `PDFOutlineExtractor.is_heading_by_pattern`: any of the six
heading-shape patterns on the stripped text (all with IGNORECASE). -/
def is_heading_by_pattern (text : List Char) : Bool :=
  let t := strip text
  matchChapter t || matchNum1 t || matchNum2 t || matchNum3 t ||
    matchAllCaps t || matchTitleCase t

/-- Step 1 of `classify_heading_level`: pattern-based classification,
first match wins. -/
def patternLevel (t : List Char) : Option String :=
  if matchChapter t then some "H1"
  else if matchNum1 t then some "H1"
  else if matchNum2 t then some "H2"
  else if matchNum3 t then some "H3"
  else none

/-- Step 2 of `classify_heading_level`: font-size thresholds. -/
def fontLevel (θ : FontThresholds) (font_size : ℚ) : Option String :=
  if θ.h1 ≤ font_size then some "H1"
  else if θ.h2 ≤ font_size then some "H2"
  else if θ.h3 ≤ font_size then some "H3"
  else none

/-- Step 3 of `classify_heading_level`: the bold fallback (bold and
under 100 characters). -/
def boldLevel (font_size : ℚ) (is_bold : Bool) (text : List Char) : Option String :=
  if is_bold && decide ((strip text).length < 100) then
    if (11 : ℚ) ≤ font_size then some "H2"
    else if (9 : ℚ) ≤ font_size then some "H3"
    else none
  else none

/-- Model of `PDFOutlineExtractor.classify_heading_level`: patterns, then font
thresholds, then the bold fallback, else not a heading. -/
def classify_heading_level (θ : FontThresholds) (font_size : ℚ) (is_bold : Bool)
    (text : List Char) : Option String :=
  match patternLevel (strip text) with
  | some l => some l
  | none =>
    match fontLevel θ font_size with
    | some l => some l
    | none => boldLevel font_size is_bold text

/-- C5: on "1.1 Overview" at size 8.0, not bold, the classifier returns
H2 because the two-level numbering pattern matches (the single-level one
does not), even though the font-size thresholds and the bold fallback on
their own would both return absent. -/
theorem classify_pattern_priority :
    classify_heading_level defaultThresholds 8 false (String.toList "1.1 Overview")
      = some "H2" ∧
    matchNum2 (strip (String.toList "1.1 Overview")) = true ∧
    matchNum1 (strip (String.toList "1.1 Overview")) = false ∧
    matchChapter (strip (String.toList "1.1 Overview")) = false ∧
    fontLevel defaultThresholds 8 = none ∧
    boldLevel 8 false (String.toList "1.1 Overview") = none := by
  refine ⟨?_, ?_, ?_, ?_, ?_, ?_⟩ <;> decide

/-- A text span as supplied by the layout collaborator. -/
structure Span where
  text : List Char
  size : ℚ
  font : List Char
  flags : Nat
  deriving DecidableEq, Repr

/-- Lower-case every character (Python `str.lower()`, ASCII model). -/
def toLowerText (cs : List Char) : List Char := cs.map Char.toLower

/-- Literal list prefix test. -/
def isPrefixB : List Char → List Char → Bool
  | [], _ => true
  | _ :: _, [] => false
  | p :: ps, c :: cs => p = c && isPrefixB ps cs

/-- Python `needle in hay` on strings: contiguous substring test. -/
def containsSub (needle : List Char) : List Char → Bool
  | [] => isPrefixB needle []
  | c :: cs => isPrefixB needle (c :: cs) || containsSub needle cs

/-- Bold signal of a span: "bold" occurs in the lower-cased font name,
or bit 4 of the font flags is set. -/
def isBoldSpan (s : Span) : Bool :=
  containsSub (String.toList "bold") (toLowerText s.font) || decide (s.flags &&& 16 ≠ 0)

/-- Python truthiness of `span["text"].strip()`. -/
def nonBlank (s : Span) : Bool := !(strip s.text).isEmpty

/-- Accumulator of the span-merging loop in `extract_headings_from_pdf`. -/
structure LineAcc where
  lineText : List Char
  sizeSum : ℚ
  isBold : Bool
  fontName : List Char
  spanCount : Nat
  deriving DecidableEq, Repr

/-- Initial accumulator of the span-merging loop. -/
def initAcc : LineAcc := ⟨[], 0, false, [], 0⟩

/-- The span-merging loop: a blank span is skipped entirely; a non-blank
span appends its raw text, adds its size, may set the bold flag, and
overwrites the recorded font name. -/
def mergeSpansAux (acc : LineAcc) : List Span → LineAcc
  | [] => acc
  | s :: rest =>
    if nonBlank s then
      mergeSpansAux ⟨acc.lineText ++ s.text, acc.sizeSum + s.size,
        acc.isBold || isBoldSpan s, s.font, acc.spanCount + 1⟩ rest
    else mergeSpansAux acc rest

theorem mergeSpansAux_filter (spans : List Span) :
    ∀ acc, mergeSpansAux acc spans = mergeSpansAux acc (spans.filter nonBlank) := by
  induction spans with
  | nil => intro acc; rfl
  | cons s rest ih =>
    intro acc
    by_cases h : nonBlank s = true
    · rw [List.filter_cons_of_pos h]
      unfold mergeSpansAux
      rw [if_pos h, if_pos h]
      exact ih _
    · rw [List.filter_cons_of_neg h]
      conv =>
        lhs
        unfold mergeSpansAux
      rw [if_neg h]
      exact ih acc

theorem mergeSpansAux_bold (spans : List Span) :
    ∀ acc, (mergeSpansAux acc spans).isBold =
      (acc.isBold || spans.any (fun s => nonBlank s && isBoldSpan s)) := by
  induction spans with
  | nil => intro acc; simp [mergeSpansAux]
  | cons s rest ih =>
    intro acc
    unfold mergeSpansAux
    by_cases h : nonBlank s = true
    · rw [if_pos h, ih]
      simp [List.any_cons, h, Bool.or_assoc]
    · rw [if_neg h, ih]
      have h' : nonBlank s = false := Bool.eq_false_iff.mpr h
      simp [List.any_cons, h']

theorem mergeSpansAux_font (spans : List Span) :
    ∀ acc, (mergeSpansAux acc spans).fontName =
      (match (spans.filter nonBlank).getLast? with
       | some s => s.font
       | none => acc.fontName) := by
  induction spans with
  | nil => intro acc; rfl
  | cons s rest ih =>
    intro acc
    unfold mergeSpansAux
    by_cases h : nonBlank s = true
    · rw [if_pos h, ih, List.filter_cons_of_pos h]
      cases hf : (rest.filter nonBlank).getLast? with
      | none =>
        have hnil : rest.filter nonBlank = [] := List.getLast?_eq_none_iff.mp hf
        rw [hnil]
        rfl
      | some g =>
        rw [List.getLast?_cons, hf]
        simp [hf]
    · rw [if_neg h, ih, List.filter_cons_of_neg h]

/-- C10: blank-text spans contribute nothing to the merged line (text,
size sum, count, bold flag, font name all agree with the run on the
non-blank spans only); the merged line is bold exactly when some
non-blank span carries a bold signal; the recorded font name is the last
non-blank span's font (empty when there is none). -/
theorem merge_line_spans (spans : List Span) :
    mergeSpansAux initAcc spans = mergeSpansAux initAcc (spans.filter nonBlank) ∧
    (mergeSpansAux initAcc spans).isBold
      = spans.any (fun s => nonBlank s && isBoldSpan s) ∧
    (mergeSpansAux initAcc spans).fontName
      = (match (spans.filter nonBlank).getLast? with
         | some s => s.font
         | none => []) := by
  refine ⟨mergeSpansAux_filter spans initAcc, ?_, ?_⟩
  · rw [mergeSpansAux_bold spans initAcc]
    rfl
  · rw [mergeSpansAux_font spans initAcc]
    cases (spans.filter nonBlank).getLast? <;> rfl

theorem length_dropWhile_le (p : Char → Bool) (l : List Char) :
    (l.dropWhile p).length ≤ l.length := by
  induction l with
  | nil => simp
  | cons c cs ih =>
    rw [List.dropWhile_cons]
    by_cases h : p c = true
    · simp only [h, if_true]
      exact ih.trans (by simp)
    · simp [h]

/-- Model of `re.sub(r'\s+', ' ', ...)`: collapse every whitespace run into a
single space (a whitespace character merges with a space already
produced by the rest of its run). -/
def collapseWS : List Char → List Char
  | [] => []
  | c :: cs =>
    let rest := collapseWS cs
    if isSpace c then
      match rest with
      | d :: ds => if d = ' ' then ' ' :: ds else ' ' :: d :: ds
      | [] => [' ']
    else c :: rest

/-- Model of `re.sub(r'\s+\d+$', '', ...)`: remove a trailing digit run preceded
by whitespace. -/
def stripTrailingPageNum (cs : List Char) : List Char :=
  let r := cs.reverse
  if (r.takeWhile Char.isDigit) ≠ [] then
    if ((r.dropWhile Char.isDigit).takeWhile isSpace) ≠ [] then
      ((r.dropWhile Char.isDigit).dropWhile isSpace).reverse
    else cs
  else cs

/-- The bullet glyphs removed by `clean_heading_text`. -/
def isBulletChar (c : Char) : Bool :=
  c = '•' || c = '▪' || c = '▫' || c = '‣' || c = '⁃'

/-- Model of `re.sub(r'[•▪▫‣⁃]', '', ...)`. -/
def removeBullets (cs : List Char) : List Char := cs.filter (fun c => !isBulletChar c)

/-- Dash characters of the leading-dash pattern. -/
def isDashChar (c : Char) : Bool := c = '-' || c = '–' || c = '—'

/-- Model of `re.sub(r'^\s*[-–—]\s*', '', ...)`: drop one leading dash together
with surrounding whitespace, when the first non-space character is a dash. -/
def stripLeadingDash (cs : List Char) : List Char :=
  match cs.dropWhile isSpace with
  | c :: rest => if isDashChar c then rest.dropWhile isSpace else cs
  | [] => cs

/-- Model of `PDFOutlineExtractor.clean_heading_text`: collapse whitespace on the
stripped text, drop a trailing page number, remove bullets, drop a
leading dash, strip. -/
def clean_heading_text (text : List Char) : List Char :=
  strip (stripLeadingDash (removeBullets (stripTrailingPageNum (collapseWS (strip text)))))

/-- Python `str.isupper()`: at least one cased character and no
lower-case character (ASCII model). -/
def isUpperText (cs : List Char) : Bool :=
  cs.any (fun c => c.isUpper || c.isLower) && !cs.any Char.isLower

/-- A visual text line: its spans and the top edge of its bounding box. -/
structure Line where
  spans : List Span
  bboxTop : ℚ
  deriving DecidableEq, Repr

/-- A layout block; `lines = none` models a block without a "lines" key. -/
structure Block where
  lines : Option (List Line)
  deriving DecidableEq, Repr

/-- A page: its height and its blocks. -/
structure Page where
  height : ℚ
  blocks : List Block
  deriving DecidableEq, Repr

/-- A parsed document: optional metadata title and its pages. -/
structure Doc where
  metadataTitle : Option (List Char)
  pages : List Page
  deriving DecidableEq, Repr

/-- Lines of a block (empty when the block has no "lines" key). -/
def blockLines (b : Block) : List Line :=
  match b.lines with
  | some ls => ls
  | none => []

/-- Font sizes of the non-blank spans of one line. -/
def lineFontSizes (ln : Line) : List ℚ := (ln.spans.filter nonBlank).map Span.size

/-- Font sizes of the non-blank spans of one page. -/
def pageFontSizes (p : Page) : List ℚ :=
  ((p.blocks.map (fun b => ((blockLines b).map lineFontSizes).join)).join)

/-- Model of `all_font_sizes`: every non-blank span's size across the document. -/
def allFontSizes (d : Doc) : List ℚ := (d.pages.map pageFontSizes).join

/-- The per-line part of the heading-extraction loop: merge the spans,
average the size, clean the text, apply the length gate and the
potential-heading gate, then classify. -/
def lineToHeading (θ : FontThresholds) (pageNum : Nat) (ln : Line) : Option HeadingInfo :=
  let acc := mergeSpansAux initAcc ln.spans
  let avg : ℚ := if acc.spanCount > 0 then acc.sizeSum / (acc.spanCount : ℚ) else 0
  let lineText := clean_heading_text acc.lineText
  if lineText.length < 2 ∨ 200 < lineText.length then none
  else if is_heading_by_pattern lineText || decide ((10 : ℚ) < avg) || acc.isBold ||
      isUpperText lineText then
    match classify_heading_level θ avg acc.isBold lineText with
    | some lvl => some ⟨lvl, lineText, pageNum, avg, acc.fontName, acc.isBold⟩
    | none => none
  else none

/-- Heading candidates of one page (1-based page number). -/
def pageHeadings (θ : FontThresholds) (pageNum : Nat) (p : Page) : List HeadingInfo :=
  ((p.blocks.map (fun b => (blockLines b).filterMap (lineToHeading θ pageNum))).join)

/-- Heading candidates of all pages, numbering from `n`. -/
def pagesHeadings (θ : FontThresholds) : Nat → List Page → List HeadingInfo
  | _, [] => []
  | n, p :: ps => pageHeadings θ n p ++ pagesHeadings θ (n + 1) ps

/-- Model of `extract_title_from_metadata`: the stripped metadata title when
present and truthy. -/
def extract_title_from_metadata (d : Doc) : Option (List Char) :=
  match d.metadataTitle with
  | some t => if t = [] then none else some (strip t)
  | none => none

/-- Model of `PDFOutlineExtractor.extract_title_from_first_page`. In the source
the method's intended body is indented out of the method (it sits at
class level, runs once at class-definition time against an undefined
name, and is swallowed by the adjacent `except` clause) and its
`return merged` line is commented out, so the method body is just its
docstring: it returns `None` for every document. -/
def extract_title_from_first_page (d : Doc) : Option (List Char) :=
  match d with
  | _ => none

/-- Model of `extract_headings_from_pdf`, with the extractor instance's mutable
`font_size_threshold` passed as explicit state. `none` models a document
the layout library cannot open: the except-branch returns no title and
an empty list, leaving the thresholds untouched. -/
def extract_headings_from_pdf (θ : FontThresholds) (d : Option Doc) :
    FontThresholds × Option (List Char) × List HeadingInfo :=
  match d with
  | none => (θ, none, [])
  | some doc =>
    let title0 := extract_title_from_metadata doc
    let title :=
      match title0 with
      | some t => if t = [] then extract_title_from_first_page doc else some t
      | none => extract_title_from_first_page doc
    let θ2 := updateThresholds θ (allFontSizes doc)
    (θ2, title, post_process_headings (pagesHeadings θ2 1 doc.pages))

/-- Model of `format_output`: substitute the placeholder title when absent or
empty, and project each heading to `(level, text, page)`. -/
def format_output (title : Option (List Char)) (headings : List HeadingInfo) :
    (List Char) × List (String × List Char × Nat) :=
  (match title with
   | some t => if t = [] then String.toList "Document" else t
   | none => String.toList "Document",
   headings.map (fun h => (h.level, h.text, h.page)))

/-- The user-visible per-document output of `process_pdf`. -/
def process_pdf_output (θ : FontThresholds) (d : Option Doc) :
    (List Char) × List (String × List Char × Nat) :=
  format_output (extract_headings_from_pdf θ d).2.1 (extract_headings_from_pdf θ d).2.2

/-- One entry of the aggregate (multi-document) contract. -/
structure SectionEntry where
  heading : List Char
  page : Nat
  score : ℚ
  deriving DecidableEq, Repr

/-- Per-document aggregate result of `process_single_pdf`. -/
structure DocResult where
  filename : List Char
  sections : List SectionEntry
  deriving DecidableEq, Repr

/-- Model of `process_single_pdf`: a fresh extractor instance, the first five
assembled headings, constant score 0.90. -/
def process_single_pdf (name : List Char) (d : Option Doc) : DocResult :=
  ⟨name, (((extract_headings_from_pdf defaultThresholds d).2.2).take 5).map
    (fun h => ⟨h.text, h.page, 9 / 10⟩)⟩

/-- A one-span document whose only line reads "12" at size 12. -/
def noiseDoc : Doc :=
  ⟨none, [⟨800, [⟨some [⟨[⟨String.toList "12", 12, String.toList "F", 0⟩], 50⟩]⟩]⟩]⟩

/-- C1 counterexample: the assembler invoked by
`extract_headings_from_pdf` (`PDFOutlineExtractor.post_process_headings`)
performs no noise filtering, so the bare page number "12" — for which
`is_noise` holds — appears in the returned outline. -/
theorem noise_reaches_outline :
    is_noise (String.toList "12") = true ∧
    (extract_headings_from_pdf defaultThresholds (some noiseDoc)).2.2
      = [⟨"H2", String.toList "12", 1, 12, String.toList "F", false⟩] := by
  constructor
  · decide
  · with_unfolding_all decide

/-- A document whose first page carries a single qualifying title span:
"Report Title" at size 20, line top 50, page height 800. -/
def titleDoc : Doc :=
  ⟨none, [⟨800, [⟨some [⟨[⟨String.toList "Report Title", 20, String.toList "F", 0⟩], 50⟩]⟩]⟩]⟩

/-- Sort order of the title candidates: font size descending, then
vertical position ascending (Python key `(-size, y)`). -/
def titleLE (a b : (List Char) × ℚ × ℚ) : Bool :=
  decide (b.2.1 < a.2.1) || (decide (a.2.1 = b.2.1) && decide (a.2.2 ≤ b.2.2))

/-- Merge loop of `merge_title_candidates`: append successive fragments
while the vertical gap to the previously appended fragment is under 50. -/
def mergeTitleLoop (acc : List Char) (prev : (List Char) × ℚ × ℚ) :
    List ((List Char) × ℚ × ℚ) → List Char
  | [] => acc
  | c :: rest =>
    if |c.2.2 - prev.2.2| < 50 then mergeTitleLoop (acc ++ ' ' :: c.1) c rest
    else acc

/-- Model of `EnhancedPDFOutlineExtractor.merge_title_candidates` (the empty case
would raise in Python; every caller guards nonemptiness). -/
def merge_title_candidates (cands : List ((List Char) × ℚ × ℚ)) : List Char :=
  match sortB titleLE cands with
  | [] => []
  | c :: rest => strip (mergeTitleLoop c.1 c rest)

/-- Stoplist test `text.lower() in ['page', 'abstract', 'introduction']`. -/
def inTitleStoplist (t : List Char) : Bool :=
  toLowerText t = String.toList "page" || toLowerText t = String.toList "abstract" ||
    toLowerText t = String.toList "introduction"

/-- The title-candidate collection and merge logic written at source
lines 101-126 (detached from `extract_title_from_first_page` by its
indentation): first-page spans whose stripped text has length at least
3 and is not stoplisted, on lines whose top edge lies within the upper
30 percent of the page, sorted and merged by `merge_title_candidates`;
absent when no candidate survives. -/
def titleHeuristic (d : Doc) : Option (List Char) :=
  match d.pages with
  | [] => none
  | p :: _ =>
    let cands := ((p.blocks.map (fun b => ((blockLines b).map (fun ln =>
      ln.spans.filterMap (fun sp =>
        let t := strip sp.text
        if t.length < 3 ∨ inTitleStoplist t = true then none
        else if ln.bboxTop < p.height * (3 / 10) then some (t, sp.size, ln.bboxTop)
        else none))).join)).join)
    match cands with
    | [] => none
    | _ :: _ => some (merge_title_candidates (sortB titleLE cands))

/-- C2 (code bug): a first-page span surviving every filter of the title
heuristic would merge to the title "Report Title" under the candidate
logic of source lines 101-126, but `extract_title_from_first_page` as
actually defined returns `None` on every document — its intended body is
mis-indented out of the method and its return statement is commented
out — so extraction yields an absent title even here. -/
theorem title_heuristic_dead :
    titleHeuristic titleDoc = some (String.toList "Report Title") ∧
    extract_title_from_first_page titleDoc = none ∧
    (extract_headings_from_pdf defaultThresholds (some titleDoc)).2.1 = none := by
  refine ⟨by with_unfolding_all decide, rfl, by with_unfolding_all decide⟩

/-- A span with the given size and irrelevant text/font. -/
def calSpan (sz : ℚ) : Span := ⟨String.toList "x", sz, String.toList "F", 0⟩

/-- A document with four distinct font sizes (20, 18, 16, 14). -/
def calDoc : Doc :=
  ⟨none, [⟨800, [⟨some [⟨[calSpan 20, calSpan 18, calSpan 16, calSpan 14], 50⟩]⟩]⟩]⟩

/-- A document with a single distinct font size (12). -/
def oneSizeDoc : Doc :=
  ⟨none, [⟨800, [⟨some [⟨[calSpan 12], 50⟩]⟩]⟩]⟩

/-- C3 counterexample: the extractor's thresholds are instance state
that is never reset, so after the same instance processes a document
with four distinct sizes, a following document with fewer than 4
distinct sizes is classified with the carried-over thresholds, not the
fixed defaults. -/
theorem thresholds_leak_across_documents :
    (sortedDistinctDesc (allFontSizes oneSizeDoc)).length < 4 ∧
    (extract_headings_from_pdf
        (extract_headings_from_pdf defaultThresholds (some calDoc)).1 (some oneSizeDoc)).1
      ≠ defaultThresholds := by
  constructor
  · decide
  · decide

/-- C3 (amended): a document with fewer than 4 distinct font sizes
leaves the incoming thresholds unchanged, so they equal the fixed
defaults exactly when the instance's thresholds were still the defaults
when the document was processed (a fresh instance, or only
fewer-than-4-size documents before it). -/
theorem few_sizes_keep_thresholds (θ : FontThresholds) (d : Doc)
    (h : (sortedDistinctDesc (allFontSizes d)).length < 4) :
    (extract_headings_from_pdf θ (some d)).1 = θ :=
  updateThresholds_of_few θ (allFontSizes d) h

/-- Witness for the amended C3 theorem on a concrete document. -/
theorem few_sizes_keep_thresholds_witness :
    (sortedDistinctDesc (allFontSizes oneSizeDoc)).length < 4 ∧
    (extract_headings_from_pdf defaultThresholds (some oneSizeDoc)).1 = defaultThresholds :=
  ⟨by decide, few_sizes_keep_thresholds defaultThresholds oneSizeDoc (by decide)⟩

/-- A successfully opened document with no pages, no metadata title,
zero headings. -/
def emptyDoc : Doc := ⟨none, []⟩

/-- C4 counterexample: the user-visible formatted result of an
unreadable document is identical to that of a successfully processed
document that found no title and zero headings — both are the
placeholder title with an empty outline. -/
theorem failure_output_not_distinct :
    process_pdf_output defaultThresholds none
      = process_pdf_output defaultThresholds (some emptyDoc) := by
  decide

/-- C4 (amended): when the document cannot be opened, extraction returns
an absent title together with an empty heading list (no partial
results); the formatted per-document output, however, substitutes the
placeholder title and so is not distinct from a successful zero-heading,
no-title run. -/
theorem unreadable_gives_empty (θ : FontThresholds) :
    extract_headings_from_pdf θ none = (θ, none, []) ∧
    process_pdf_output θ none = (String.toList "Document", []) :=
  ⟨rfl, rfl⟩

/-- Soundness statement for calibrated thresholds over the size list. -/
def calibratedSound (θ2 : FontThresholds) (sizes : List ℚ) : Prop :=
  θ2.h3 ≤ θ2.h2 ∧ θ2.h2 ≤ θ2.h1 ∧ θ2.h1 ∈ sizes ∧ θ2.h2 ∈ sizes ∧ θ2.h3 ∈ sizes ∧
    ∃ m ∈ sizes, (∀ s ∈ sizes, s ≤ m) ∧ θ2.h1 < m

/-- C6: for a document whose non-blank spans carry at least 4 distinct
font sizes, the thresholds in effect during its classification pass
satisfy h1 ≥ h2 ≥ h3, each is one of the document's span sizes, and h1
is strictly below the document's maximum span size. -/
theorem calibrated_thresholds_sound (θ : FontThresholds) (d : Doc)
    (h4 : 4 ≤ (sortedDistinctDesc (allFontSizes d)).length) :
    calibratedSound (extract_headings_from_pdf θ (some d)).1 (allFontSizes d) := by
  obtain ⟨a, b, c, c2, c3, m⟩ := updateThresholds_calibrated θ (allFontSizes d) h4
  exact ⟨a, b, c, c2, c3, m⟩

/-- Witness for C6 on a concrete document with four distinct sizes. -/
theorem calibrated_thresholds_sound_witness :
    4 ≤ (sortedDistinctDesc (allFontSizes calDoc)).length ∧
    calibratedSound (extract_headings_from_pdf defaultThresholds (some calDoc)).1
      (allFontSizes calDoc) :=
  ⟨by decide, calibrated_thresholds_sound defaultThresholds calDoc (by decide)⟩

/-- C9: every aggregate per-document result carries at most 5 sections,
taken in order from the assembled heading sequence, each with the
constant score 0.90. -/
theorem process_single_pdf_sections (name : List Char) (d : Option Doc) :
    (process_single_pdf name d).sections.length ≤ 5 ∧
    (process_single_pdf name d).sections
      = (((extract_headings_from_pdf defaultThresholds d).2.2).take 5).map
          (fun h => ⟨h.text, h.page, 9 / 10⟩) ∧
    (process_single_pdf name d).sections.all (fun e => decide (e.score = 9 / 10)) = true := by
  refine ⟨?_, rfl, ?_⟩
  · show ((((extract_headings_from_pdf defaultThresholds d).2.2).take 5).map
      (fun h => (⟨h.text, h.page, 9 / 10⟩ : SectionEntry))).length ≤ 5
    rw [List.length_map]
    exact List.length_take_le 5 _
  · rw [List.all_eq_true]
    intro e he
    have he2 : e ∈ (((extract_headings_from_pdf defaultThresholds d).2.2).take 5).map
        (fun h => (⟨h.text, h.page, 9 / 10⟩ : SectionEntry)) := he
    rcases List.mem_map.mp he2 with ⟨h, _, rfl⟩
    simp
